import Mathlib

/-!
Verification development for the expense tracker (src/backend/api.py and
src/src/app.py).  Both front ends share the same validation rules and the
same MySQL-backed ledger operations; the store is modelled as a list of
rows plus the AUTO_INCREMENT counter, amounts as exact rationals (the
DECIMAL column), and the SQL statements as list functions.
-/

namespace ExpenseTracker

/-! ## Python float values

api.py declares `amount: float`, so `validate_amount` there compares a
CPython float with `0`.  `PyFloat` models the float values relevant to the
validators: finite values (held exactly as rationals), the two infinities
and NaN.  `pyGt` is the IEEE-754 `>` used by `amount > 0`: any comparison
with NaN is false, `inf` is above everything else, `-inf` below. -/

inductive PyFloat where
  | finite (q : ℚ)
  | inf
  | negInf
  | nan
deriving DecidableEq

def PyFloat.pyGt : PyFloat → PyFloat → Bool
  | .nan, _ => false
  | _, .nan => false
  | .inf, .inf => false
  | .inf, _ => true
  | .negInf, _ => false
  | .finite _, .inf => false
  | .finite _, .negInf => true
  | .finite a, .finite b => decide (b < a)

/-- api.py `validate_amount(amount: float) -> bool`: `return amount > 0`. -/
def validate_amount_float (amount : PyFloat) : Bool :=
  amount.pyGt (.finite 0)

/-- app.py `validate_amount(amount_string)`: runs `float(amount_string)`
inside `try`, returns `amount > 0` on success and `False` on `ValueError`.
The outcome of the CPython `float()` conversion is passed in as `conv`,
with `none` standing for the conversion raising `ValueError` on
non-numeric text. -/
def validate_amount_cli (conv : Option PyFloat) : Bool :=
  match conv with
  | none => false
  | some amount => amount.pyGt (.finite 0)

/-- Engine-level amount validator over the exact decimal (rational) amount
domain of the store model: `amount > 0`. -/
def validate_amount (amount : ℚ) : Bool := decide (0 < amount)

/-! ## Date validation

Both sources call `datetime.strptime(date_string, '%Y-%m-%d')` inside
try/except.  CPython compiles that format into the anchored, fully
consuming regex

  `(?P<Y>\d\d\d\d)-(?P<m>1[0-2]|0[1-9]|[1-9])-(?P<d>3[0-1]|[1-2]\d|0[1-9]|[1-9]| [1-9])`

— the year is exactly four digits, the month one or two ASCII digits, and
the day also admits a space-padded ` [1-9]` alternative (kept for ANSI C
compatibility).  `\d` matches every Unicode decimal digit (category Nd),
and `int()` of a matched group converts exactly those digits, so the year
and the second character of a `[1-2]\d` day may be any Unicode decimal
digit.  The other character classes are literal ASCII.  Finally
`datetime(year, month, day)` checks `MINYEAR <= year` and the day against
the calendar month length. -/

def isAsciiDigit (c : Char) : Bool := decide ('0' ≤ c) && decide (c ≤ '9')

def digitVal (c : Char) : Nat := c.toNat - '0'.toNat

def natOfDigits (l : List Char) : Nat := l.foldl (fun a c => 10 * a + digitVal c) 0

def allDigits (l : List Char) : Bool := l.all isAsciiDigit

/-- The Unicode decimal digits (category Nd) of the embedded CPython
build, one entry per aligned run of ten code points with decimal values
0..9: these are exactly the characters the build's regex `\d` matches and
its `int()` converts, with value = offset into the run. -/
def ndDecades : List Nat :=
  [0x30, 0x660, 0x6F0, 0x7C0, 0x966, 0x9E6, 0xA66, 0xAE6, 0xB66, 0xBE6,
   0xC66, 0xCE6, 0xD66, 0xDE6, 0xE50, 0xED0, 0xF20, 0x1040, 0x1090, 0x17E0,
   0x1810, 0x1946, 0x19D0, 0x1A80, 0x1A90, 0x1B50, 0x1BB0, 0x1C40, 0x1C50,
   0xA620, 0xA8D0, 0xA900, 0xA9D0, 0xA9F0, 0xAA50, 0xABF0, 0xFF10, 0x104A0,
   0x10D30, 0x11066, 0x110F0, 0x11136, 0x111D0, 0x112F0, 0x11450, 0x114D0,
   0x11650, 0x116C0, 0x11730, 0x118E0, 0x11950, 0x11C50, 0x11D50, 0x11DA0,
   0x16A60, 0x16AC0, 0x16B50, 0x1D7CE, 0x1D7D8, 0x1D7E2, 0x1D7EC, 0x1D7F6,
   0x1E140, 0x1E2F0, 0x1E950, 0x1FBF0]

/-- A Unicode decimal digit: matched by `\d` and accepted by `int()`. -/
def isPyDigit (c : Char) : Bool :=
  ndDecades.any (fun b => decide (b ≤ c.toNat) && decide (c.toNat < b + 10))

/-- The decimal value of a Unicode decimal digit. -/
def pyDigitVal (c : Char) : Nat :=
  match ndDecades.find? (fun b => decide (b ≤ c.toNat) && decide (c.toNat < b + 10)) with
  | some b => c.toNat - b
  | none => 0

/-- `int()` of a run of Unicode decimal digits. -/
def natOfPyDigits (l : List Char) : Nat :=
  l.foldl (fun a c => 10 * a + pyDigitVal c) 0

/-- The literal ASCII class `[1-9]`. -/
def isDigit19 (c : Char) : Bool := decide (49 ≤ c.toNat) && decide (c.toNat ≤ 57)

/-- `%Y` (`\d\d\d\d`): exactly four Unicode decimal digits, converted by
`int()`. -/
def yearField (l : List Char) : Option Nat :=
  if l.length = 4 && l.all isPyDigit then some (natOfPyDigits l) else none

/-- `%m` (`1[0-2]|0[1-9]|[1-9]`): one or two ASCII digits denoting 1..12,
with `00` and one-digit `0` excluded (the month classes are all literal
ASCII — no `\d`). -/
def monthField (l : List Char) : Option Nat :=
  if allDigits l && (l.length = 1 || l.length = 2) then
    if 1 ≤ natOfDigits l && natOfDigits l ≤ 12 then some (natOfDigits l) else none
  else none

/-- `%d` (`3[0-1]|[1-2]\d|0[1-9]|[1-9]| [1-9]`): days 30 and 31; 10..29
with the second character any Unicode decimal digit; zero-padded 01..09;
bare 1..9; or a space followed by 1..9.  `int()` of the matched text
(a leading space is allowed by `int`) gives the day value. -/
def dayField (l : List Char) : Option Nat :=
  match l with
  | [c] => if isDigit19 c then some (digitVal c) else none
  | [c1, c2] =>
    if decide (c1 = '3') && (decide (c2 = '0') || decide (c2 = '1')) then
      some (30 + digitVal c2)
    else if (decide (c1 = '1') || decide (c1 = '2')) && isPyDigit c2 then
      some (10 * digitVal c1 + pyDigitVal c2)
    else if decide (c1 = '0') && isDigit19 c2 then some (digitVal c2)
    else if decide (c1 = ' ') && isDigit19 c2 then some (digitVal c2)
    else none
  | _ => none

/-- Split a character list at every `-`, keeping empty parts, as the
strptime regex does around the literal dashes of the format. -/
def splitDash : List Char → List (List Char)
  | [] => [[]]
  | c :: rest =>
    if c = '-' then [] :: splitDash rest
    else (c :: (splitDash rest).headD []) :: (splitDash rest).tail

/-- Proleptic Gregorian leap-year rule used by `datetime`. -/
def isLeapYear (y : Nat) : Bool := y % 4 == 0 && (y % 100 != 0 || y % 400 == 0)

/-- `datetime`: days in a month. -/
def daysInMonth (y m : Nat) : Nat :=
  if m = 2 then (if isLeapYear y then 29 else 28)
  else if m = 4 ∨ m = 6 ∨ m = 9 ∨ m = 11 then 30
  else 31

def parseDateFields (s : String) : Option (Nat × Nat × Nat) :=
  match splitDash s.data with
  | [ys, ms, ds] =>
    match yearField ys, monthField ms, dayField ds with
    | some y, some m, some d => some (y, m, d)
    | _, _, _ => none
  | _ => none

/-- `validate_date(date_string)` of both sources: `strptime` with format
`'%Y-%m-%d'` in try/except `ValueError`; the field regexes split the
string at the dashes, and the `datetime` constructor checks the year lower
bound and the day against the month length. -/
def validate_date (s : String) : Bool :=
  match parseDateFields s with
  | some (y, m, d) => decide (1 ≤ y) && decide (d ≤ daysInMonth y m)
  | none => false

/-! ## Calendar dates and their order (the DATE column) -/

structure Date where
  year : Nat
  month : Nat
  day : Nat
deriving DecidableEq

/-- The calendar date a validated string denotes; the DATE column stores
this value. -/
def parseDate (s : String) : Option Date :=
  match parseDateFields s with
  | some (y, m, d) => some ⟨y, m, d⟩
  | none => none

/-- Chronological order on DATE values (year, then month, then day). -/
def Date.Le (a b : Date) : Prop :=
  a.year < b.year ∨
    (a.year = b.year ∧ (a.month < b.month ∨ (a.month = b.month ∧ a.day ≤ b.day)))

instance (a b : Date) : Decidable (Date.Le a b) := by
  unfold Date.Le
  exact inferInstance

def dateLeB (a b : Date) : Bool := decide (Date.Le a b)

/-! ## The category list -/

/-- The fixed `CATEGORIES` list, identical in both source files. -/
def CATEGORIES : List String :=
  ["Food", "Transport", "Bills", "Entertainment", "Shopping", "Healthcare", "Other"]

/-! ## Python str.isdigit / int, for the menu category selection -/

def str_isdigit (s : String) : Bool := !s.data.isEmpty && allDigits s.data

def str_toNat (s : String) : Nat := natOfDigits s.data

/-- app.py `select_category()`: shows the menu and reads a choice (modelled
as the already stripped input string); returns `CATEGORIES[int(choice)-1]`
when `choice.isdigit()` and `1 <= int(choice) <= len(CATEGORIES)`, and
`None` otherwise. -/
def select_category (choice : String) : Option String :=
  if str_isdigit choice && decide (1 ≤ str_toNat choice)
      && decide (str_toNat choice ≤ CATEGORIES.length) then
    CATEGORIES[str_toNat choice - 1]?
  else none

/-! ## The expense store

One relational table of expense rows plus the AUTO_INCREMENT counter for
`id`; `emptyStore` is a fresh table (MySQL starts AUTO_INCREMENT at 1). -/

structure ExpenseRecord where
  id : Nat
  date : Date
  category : String
  amount : ℚ
  description : String
deriving DecidableEq

structure Store where
  rows : List ExpenseRecord
  nextId : Nat
deriving DecidableEq

def emptyStore : Store := { rows := [], nextId := 1 }

/-- The store invariants AUTO_INCREMENT maintains: every assigned id is
below the counter, and ids are pairwise distinct. -/
def Store.WF (s : Store) : Prop :=
  (∀ r ∈ s.rows, r.id < s.nextId) ∧ s.rows.Pairwise (fun a b => a.id ≠ b.id)

/-! ## Ordering rows by date descending (`ORDER BY date DESC`) -/

def recDescR (a b : ExpenseRecord) : Prop := dateLeB b.date a.date = true

instance : DecidableRel recDescR := fun a b => by
  unfold recDescR
  exact inferInstance

def sortByDateDesc (l : List ExpenseRecord) : List ExpenseRecord :=
  List.insertionSort recDescR l

def dateDescR (a b : Date) : Prop := dateLeB b a = true

instance : DecidableRel dateDescR := fun a b => by
  unfold dateDescR
  exact inferInstance

instance : IsTotal ExpenseRecord recDescR :=
  ⟨fun a b => by
    simp only [recDescR, dateLeB, decide_eq_true_iff]
    unfold Date.Le
    omega⟩

instance : IsTrans ExpenseRecord recDescR :=
  ⟨fun a b c h1 h2 => by
    simp only [recDescR, dateLeB, decide_eq_true_iff] at *
    unfold Date.Le at *
    omega⟩

instance : IsTotal Date dateDescR :=
  ⟨fun a b => by
    simp only [dateDescR, dateLeB, decide_eq_true_iff]
    unfold Date.Le
    omega⟩

instance : IsTrans Date dateDescR :=
  ⟨fun a b c h1 h2 => by
    simp only [dateDescR, dateLeB, decide_eq_true_iff] at *
    unfold Date.Le at *
    omega⟩

def amountsSum (l : List ExpenseRecord) : ℚ := (l.map (fun r => r.amount)).sum

/-! ## Operations -/

/-- api.py `get_expenses`: `SELECT id, date, category, amount, description
FROM expenses ORDER BY date DESC`. -/
def get_expenses (s : Store) : List ExpenseRecord := sortByDateDesc s.rows

/-- The create response: api.py returns `{"message": ..., "id": lastrowid}`
on success (only the new id, no record fields) and an HTTP 400 naming the
failing field on a validation failure. -/
inductive CreateResult where
  | created (id : Nat)
  | validationError (field : String)
deriving DecidableEq

/-- api.py `create_expense`: validates date, amount and category in that
order, rejecting with a 400 that names the failing field; on success runs
the INSERT, commits, and returns `cursor.lastrowid`.  The DATE column
stores the calendar date the validated string denotes. -/
def create_expense (s : Store) (date category : String) (amount : ℚ)
    (description : String) : CreateResult × Store :=
  if validate_date date = false then (.validationError "date", s)
  else if validate_amount amount = false then (.validationError "amount", s)
  else if category ∉ CATEGORIES then (.validationError "category", s)
  else
    let d := (parseDate date).getD ⟨1, 1, 1⟩
    let r : ExpenseRecord :=
      { id := s.nextId, date := d, category := category,
        amount := amount, description := description }
    (.created s.nextId, { rows := s.rows ++ [r], nextId := s.nextId + 1 })

/-- The delete outcome variants of api.py `delete_expense`: success, the
404 branch for `cursor.rowcount == 0`, and the 500 branch for a mysql
error (never produced by the pure store model, present to state that the
not-found outcome is a distinct variant). -/
inductive DeleteResult where
  | deleted
  | notFound
  | storageError
deriving DecidableEq

/-- api.py `delete_expense` / app.py `delete_expense`: `DELETE FROM
expenses WHERE id = %s`; when `cursor.rowcount` is zero the store is left
as it was and not-found is reported, otherwise the deletion is
committed. -/
def delete_expense (s : Store) (i : Nat) : DeleteResult × Store :=
  if ((s.rows.filter (fun r => decide (r.id = i))).length = 0) then (.notFound, s)
  else (.deleted, { rows := s.rows.filter (fun r => decide (r.id ≠ i)), nextId := s.nextId })

/-- The rows of a given date (one GROUP BY group). -/
def rowsOnDate (l : List ExpenseRecord) (d : Date) : List ExpenseRecord :=
  l.filter (fun r => decide (r.date = d))

/-- api.py `get_summaries` / app.py `view_summaries`: `SELECT date,
SUM(amount) FROM expenses GROUP BY date ORDER BY date DESC` — one pair per
distinct date present, carrying that day's amount total. -/
def get_summaries (s : Store) : List (Date × ℚ) :=
  (List.insertionSort dateDescR ((s.rows.map (fun r => r.date)).dedup)).map
    (fun d => (d, amountsSum (rowsOnDate s.rows d)))

/-- The insights payload of api.py `get_insights`. -/
structure Insights where
  average_spending : ℚ
  highest_expense : ℚ
  most_common_category : Option String
  category_count : Nat
deriving DecidableEq

/-- SQL `MAX(amount)` over the listed amounts. -/
def maxQ : List ℚ → ℚ
  | [] => 0
  | x :: xs => xs.foldl max x

/-- `COUNT(*)` of the rows in a category. -/
def catCount (l : List ExpenseRecord) (c : String) : Nat :=
  (l.filter (fun r => decide (r.category = c))).length

/-- The distinct categories present, in first-appearance order. -/
def categoriesOf (l : List ExpenseRecord) : List String :=
  (l.map (fun r => r.category)).dedup

/-- One step of scanning the per-category counts for the maximum. -/
def pickStep (l : List ExpenseRecord) (best : String × Nat) (x : String) : String × Nat :=
  if best.2 < catCount l x then (x, catCount l x) else best

/-- `SELECT category, COUNT(*) ... GROUP BY category ORDER BY count DESC
LIMIT 1`: a category of maximal row count, with its count (the SQL row
order among tied counts is store-dependent; the model keeps the first
category attaining the maximum). -/
def pickMostCommon (l : List ExpenseRecord) : Option (String × Nat) :=
  match categoriesOf l with
  | [] => none
  | c :: cs => some (cs.foldl (pickStep l) (c, catCount l c))

/-- api.py `get_insights` / app.py `generate_insights`: on an empty table
the designated all-zero result; otherwise `AVG(amount)`, `MAX(amount)` and
the most common category with its count. -/
def get_insights (s : Store) : Insights :=
  if s.rows.length = 0 then
    { average_spending := 0, highest_expense := 0,
      most_common_category := none, category_count := 0 }
  else
    match pickMostCommon s.rows with
    | some (c, k) =>
      { average_spending := amountsSum s.rows / (s.rows.length : ℚ),
        highest_expense := maxQ (s.rows.map (fun r => r.amount)),
        most_common_category := some c, category_count := k }
    | none =>
      { average_spending := amountsSum s.rows / (s.rows.length : ℚ),
        highest_expense := maxQ (s.rows.map (fun r => r.amount)),
        most_common_category := none, category_count := 0 }

/-- app.py `filter_by_date_range`: validates both entered dates (`none`
models the early return on a format error), then `SELECT ... WHERE date
BETWEEN %s AND %s ORDER BY date DESC` with the Python loop accumulating
the total. -/
def filter_by_date_range (s : Store) (startS endS : String) :
    Option (List ExpenseRecord × ℚ) :=
  if validate_date startS = false then none
  else if validate_date endS = false then none
  else
    let ds := (parseDate startS).getD ⟨1, 1, 1⟩
    let de := (parseDate endS).getD ⟨1, 1, 1⟩
    let es := sortByDateDesc
      (s.rows.filter (fun r => dateLeB ds r.date && dateLeB r.date de))
    some (es, es.foldl (fun t r => t + r.amount) 0)

/-- app.py `filter_by_category`: category comes from `select_category`;
`none` models the early return on an invalid selection, otherwise
`SELECT ... WHERE category = %s ORDER BY date DESC` plus the summed
total. -/
def filter_by_category (s : Store) (choice : String) :
    Option (List ExpenseRecord × ℚ) :=
  match select_category choice with
  | none => none
  | some c =>
    let es := sortByDateDesc (s.rows.filter (fun r => decide (r.category = c)))
    some (es, es.foldl (fun t r => t + r.amount) 0)

/-! ## Spec-side definitions and concrete example stores -/

/-- Inverse of `splitDash`: rejoin parts with a dash between them. -/
def joinDash : List (List Char) → List Char
  | [] => []
  | [p] => p
  | p :: ps => p ++ '-' :: joinDash ps

/-- The string decomposes into a strptime year field, a dash, a month
field, a dash and a day field denoting the numbers `y`, `m`, `d`. -/
def YmdRepr (s : String) (y m d : Nat) : Prop :=
  ∃ ys ms ds, s.data = ys ++ '-' :: (ms ++ '-' :: ds) ∧
    yearField ys = some y ∧ monthField ms = some m ∧ dayField ds = some d

/-- Modelled from the spec: a string written exactly in `YYYY-MM-DD` form —
four-digit year, dash, two-digit zero-padded month, dash, two-digit
zero-padded day — denoting a real calendar date (year at least 1). -/
def strictYmd (s : String) : Bool :=
  match s.data with
  | [y1, y2, y3, y4, h1, mo1, mo2, h2, d1, d2] =>
    isAsciiDigit y1 && isAsciiDigit y2 && isAsciiDigit y3 && isAsciiDigit y4 &&
    (h1 == '-') && (h2 == '-') && isAsciiDigit mo1 && isAsciiDigit mo2 &&
    isAsciiDigit d1 && isAsciiDigit d2 &&
    decide (1 ≤ natOfDigits [y1, y2, y3, y4]) &&
    decide (1 ≤ natOfDigits [mo1, mo2]) && decide (natOfDigits [mo1, mo2] ≤ 12) &&
    decide (1 ≤ natOfDigits [d1, d2]) &&
    decide (natOfDigits [d1, d2] ≤
      daysInMonth (natOfDigits [y1, y2, y3, y4]) (natOfDigits [mo1, mo2]))
  | _ => false

/-- The spec's insights example ledger: `[Food:10.00, Food:20.00,
Transport:5.00]`. -/
def insightsExample : Store :=
  { rows :=
      [ { id := 1, date := ⟨2024, 1, 1⟩, category := "Food", amount := 10,
          description := "" },
        { id := 2, date := ⟨2024, 1, 1⟩, category := "Food", amount := 20,
          description := "" },
        { id := 3, date := ⟨2024, 1, 2⟩, category := "Transport", amount := 5,
          description := "" } ],
    nextId := 4 }

/-- A one-row store used to exercise delete and range filtering. -/
def oneRowStore : Store :=
  { rows :=
      [ { id := 1, date := ⟨2024, 1, 5⟩, category := "Food", amount := 10,
          description := "coffee" } ],
    nextId := 2 }

/-! ## Basic lemmas -/

lemma dateLeB_iff {a b : Date} : dateLeB a b = true ↔ Date.Le a b := by
  simp [dateLeB]

lemma dateLeB_trans {a b c : Date} (h1 : dateLeB a b = true) (h2 : dateLeB b c = true) :
    dateLeB a c = true := by
  simp only [dateLeB, decide_eq_true_iff] at *
  unfold Date.Le at *
  omega

lemma foldl_add_amount (l : List ExpenseRecord) :
    ∀ a : ℚ, l.foldl (fun t r => t + r.amount) a = a + amountsSum l := by
  induction l with
  | nil => intro a; simp [amountsSum]
  | cons x xs ih =>
    intro a
    rw [List.foldl_cons, ih]
    simp [amountsSum]
    ring

lemma mem_sortByDateDesc {r : ExpenseRecord} {l : List ExpenseRecord} :
    r ∈ sortByDateDesc l ↔ r ∈ l :=
  (List.perm_insertionSort recDescR l).mem_iff

lemma validate_date_fields {s : String} (h : validate_date s = true) :
    ∃ y m d, parseDateFields s = some (y, m, d) ∧ 1 ≤ y ∧ d ≤ daysInMonth y m := by
  unfold validate_date at h
  rcases hp : parseDateFields s with _ | ⟨y, m, d⟩
  · rw [hp] at h
    simp at h
  · rw [hp] at h
    simp only [Bool.and_eq_true, decide_eq_true_iff] at h
    exact ⟨y, m, d, rfl, h.1, h.2⟩

lemma parseDate_of_fields {s : String} {y m d : Nat}
    (h : parseDateFields s = some (y, m, d)) : parseDate s = some ⟨y, m, d⟩ := by
  simp [parseDate, h]

/-! ## C9: insights on an empty ledger -/

/-- C9: `insights()` on an empty ledger returns the designated empty
result — zero average, zero highest, no category, zero count — as an
ordinary `Insights` value, not an error. -/
theorem get_insights_empty (s : Store) (h : s.rows = []) :
    get_insights s =
      { average_spending := 0, highest_expense := 0,
        most_common_category := none, category_count := 0 } := by
  simp [get_insights, h]

/-- C9 witness: the empty store. -/
theorem get_insights_empty_witness :
    get_insights emptyStore =
      { average_spending := 0, highest_expense := 0,
        most_common_category := none, category_count := 0 } :=
  get_insights_empty emptyStore rfl

/-! ## C10: the menu category selection stays inside the fixed list -/

/-- C4 counterexample: `float('inf')` is accepted by `validate_amount`
(`inf > 0` is true in Python) although it is not a finite numeric value,
so "succeeds iff x is a finite numeric value strictly greater than zero"
fails at `x = inf`. -/
theorem validate_amount_inf_counterexample :
    validate_amount_float PyFloat.inf = true ∧
      ∀ q : ℚ, PyFloat.inf ≠ PyFloat.finite q :=
  ⟨rfl, fun _ h => PyFloat.noConfusion h⟩

/-- C4 (amended): `validate_amount` succeeds exactly on the float values
that compare strictly above zero — the strictly positive finite values
and `+inf`; NaN and all non-positive values are rejected.  When the amount
is supplied as text, a failed `float()` conversion yields a `False`
validation result (never a numeric exception), and a successful
conversion is judged exactly like the float it produced. -/
theorem validate_amount_float_characterization (x : PyFloat) :
    (validate_amount_float x = true ↔
      (∃ q : ℚ, x = .finite q ∧ 0 < q) ∨ x = .inf) ∧
    validate_amount_cli (some x) = validate_amount_float x ∧
    validate_amount_cli none = false := by
  refine ⟨?_, rfl, rfl⟩
  cases x with
  | finite q => simp [validate_amount_float, PyFloat.pyGt]
  | inf => simp [validate_amount_float, PyFloat.pyGt]
  | negInf => simp [validate_amount_float, PyFloat.pyGt]
  | nan => simp [validate_amount_float, PyFloat.pyGt]

/-! ## C1: invalid create requests are rejected without a write -/

/-- C1: a create request in which date, amount or category fails its
validator (in particular any amount `x ≤ 0` and any category outside the
fixed set) returns a validation error naming a failing field, performs no
storage write (the store is returned unchanged) and leaves the record
count unchanged. -/
theorem create_expense_rejects_invalid (s : Store) (date cat : String) (amt : ℚ)
    (descr : String)
    (h : validate_date date = false ∨ amt ≤ 0 ∨ cat ∉ CATEGORIES) :
    ∃ f, create_expense s date cat amt descr = (.validationError f, s) ∧
      ((f = "date" ∧ validate_date date = false) ∨
        (f = "amount" ∧ validate_amount amt = false) ∨
        (f = "category" ∧ cat ∉ CATEGORIES)) ∧
      (create_expense s date cat amt descr).2.rows.length = s.rows.length := by
  by_cases hd : validate_date date = false
  · refine ⟨"date", ?_, Or.inl ⟨rfl, hd⟩, ?_⟩ <;> simp [create_expense, hd]
  · have hd2 : validate_date date = true := by
      revert hd
      cases validate_date date <;> simp
    by_cases ha : validate_amount amt = false
    · refine ⟨"amount", ?_, Or.inr (Or.inl ⟨rfl, ha⟩), ?_⟩ <;>
        simp [create_expense, hd2, ha]
    · have ha2 : validate_amount amt = true := by
        revert ha
        cases validate_amount amt <;> simp
      have hpos : (0 : ℚ) < amt := by
        have := ha2
        simp only [validate_amount, decide_eq_true_iff] at this
        exact this
      have hc : cat ∉ CATEGORIES := by
        rcases h with h | h | h
        · exact absurd h hd
        · exact absurd hpos (not_lt.mpr h)
        · exact h
      refine ⟨"category", ?_, Or.inr (Or.inr ⟨rfl, hc⟩), ?_⟩ <;>
        simp [create_expense, hd2, ha2, hc]

/-- C1 witness: creating with the invalid amount `-3` is rejected and the
empty store stays empty. -/
theorem create_expense_rejects_invalid_witness :
    ∃ f, create_expense emptyStore "2024-01-05" "Food" (-3) "snack" =
        (.validationError f, emptyStore) ∧
      ((f = "date" ∧ validate_date "2024-01-05" = false) ∨
        (f = "amount" ∧ validate_amount (-3) = false) ∨
        (f = "category" ∧ "Food" ∉ CATEGORIES)) ∧
      (create_expense emptyStore "2024-01-05" "Food" (-3) "snack").2.rows.length =
        emptyStore.rows.length :=
  create_expense_rejects_invalid emptyStore "2024-01-05" "Food" (-3) "snack"
    (Or.inr (Or.inl (by norm_num)))

/-! ## C3: characterizing the date validator -/

lemma splitDash_ne_nil : ∀ l : List Char, splitDash l ≠ []
  | [] => by simp [splitDash]
  | c :: rest => by
    unfold splitDash
    split <;> simp

lemma joinDash_splitDash : ∀ l : List Char, joinDash (splitDash l) = l := by
  intro l
  induction l with
  | nil => rfl
  | cons c rest ih =>
    unfold splitDash
    by_cases h : c = '-'
    · subst h
      simp only [if_pos rfl]
      rcases hs : splitDash rest with _ | ⟨p, ps⟩
      · exact absurd hs (splitDash_ne_nil rest)
      · rw [hs] at ih
        simp [joinDash, ih]
    · simp only [if_neg h]
      rcases hs : splitDash rest with _ | ⟨p, ps⟩
      · exact absurd hs (splitDash_ne_nil rest)
      · rw [hs] at ih
        cases ps with
        | nil => simpa [joinDash] using ih
        | cons q qs => simpa [joinDash] using ih

lemma splitDash_append {l : List Char} (hl : ∀ c ∈ l, c ≠ '-') (rest : List Char) :
    splitDash (l ++ '-' :: rest) = l :: splitDash rest := by
  induction l with
  | nil => simp [splitDash]
  | cons c t ih =>
    have hc : c ≠ '-' := hl c (by simp)
    have ht : ∀ x ∈ t, x ≠ '-' := fun x hx => hl x (by simp [hx])
    simp only [List.cons_append]
    unfold splitDash
    rw [if_neg hc, ih ht]
    simp
    cases rest <;> simp [splitDash]

lemma splitDash_noDash {l : List Char} (hl : ∀ c ∈ l, c ≠ '-') : splitDash l = [l] := by
  induction l with
  | nil => rfl
  | cons c t ih =>
    have hc : c ≠ '-' := hl c (by simp)
    have ht : ∀ x ∈ t, x ≠ '-' := fun x hx => hl x (by simp [hx])
    unfold splitDash
    rw [if_neg hc, ih ht]
    simp

lemma allDigits_no_dash {l : List Char} (h : allDigits l = true) :
    ∀ c ∈ l, c ≠ '-' := by
  intro c hc heq
  subst heq
  simp only [allDigits, List.all_eq_true] at h
  have := h _ hc
  simp [isAsciiDigit] at this

lemma isPyDigit_ne_dash {c : Char} (h : isPyDigit c = true) : c ≠ '-' := by
  intro heq
  subst heq
  exact absurd h (by decide)

lemma isDigit19_ne_dash {c : Char} (h : isDigit19 c = true) : c ≠ '-' := by
  intro heq
  subst heq
  exact absurd h (by decide)

lemma pyDigitVal_le_nine {c : Char} (h : isPyDigit c = true) : pyDigitVal c ≤ 9 := by
  unfold isPyDigit at h
  rw [List.any_eq_true] at h
  obtain ⟨b, hb, hbc⟩ := h
  unfold pyDigitVal
  rcases hf : ndDecades.find?
      (fun b => decide (b ≤ c.toNat) && decide (c.toNat < b + 10)) with _ | b2
  · rw [List.find?_eq_none] at hf
    exact absurd hbc (hf b hb)
  · have hp := List.find?_some hf
    simp only [Bool.and_eq_true, decide_eq_true_iff] at hp
    show c.toNat - b2 ≤ 9
    omega

lemma yearField_no_dash {l : List Char} {y : Nat} (h : yearField l = some y) :
    ∀ c ∈ l, c ≠ '-' := by
  unfold yearField at h
  split_ifs at h with hcond
  · simp only [Bool.and_eq_true, List.all_eq_true, decide_eq_true_iff] at hcond
    intro c hc
    exact isPyDigit_ne_dash (hcond.2 c hc)

lemma monthField_eq_some {l : List Char} {m : Nat} :
    monthField l = some m ↔
      allDigits l = true ∧ (l.length = 1 ∨ l.length = 2) ∧
        1 ≤ m ∧ m ≤ 12 ∧ natOfDigits l = m := by
  unfold monthField
  split_ifs with h1 h2
  · simp only [Bool.and_eq_true, Bool.or_eq_true, decide_eq_true_iff] at h1 h2
    constructor
    · rintro h
      have hm : natOfDigits l = m := by simpa using h
      exact ⟨h1.1, h1.2, by omega, by omega, hm⟩
    · rintro ⟨-, -, -, -, h5⟩
      simp [h5]
  · simp only [Bool.and_eq_true, Bool.or_eq_true, decide_eq_true_iff] at h1 h2
    constructor
    · intro habs
      exact absurd habs (by simp)
    · rintro ⟨-, -, h3, h4, h5⟩
      omega
  · simp only [Bool.and_eq_true, Bool.or_eq_true, decide_eq_true_iff, not_and] at h1
    constructor
    · intro habs
      exact absurd habs (by simp)
    · rintro ⟨h2, h3, -⟩
      exact h1 h2 h3

lemma monthField_no_dash {l : List Char} {m : Nat} (h : monthField l = some m) :
    ∀ c ∈ l, c ≠ '-' :=
  allDigits_no_dash (monthField_eq_some.mp h).1

lemma dayField_shape {l : List Char} {d : Nat} (h : dayField l = some d) :
    (∀ c ∈ l, c ≠ '-') ∧ 1 ≤ d ∧ d ≤ 31 := by
  have h48 : ('0').toNat = 48 := rfl
  have h49 : ('1').toNat = 49 := rfl
  have h50 : ('2').toNat = 50 := rfl
  rcases l with _ | ⟨c1, _ | ⟨c2, _ | ⟨c3, t⟩⟩⟩
  · exact absurd h (by simp [dayField])
  · have hif : (if isDigit19 c1 = true then some (digitVal c1) else none) = some d := h
    split_ifs at hif with h1
    · simp only [Option.some.injEq] at hif
      have h19 : 49 ≤ c1.toNat ∧ c1.toNat ≤ 57 := by
        simpa [isDigit19] using h1
      refine ⟨?_, ?_⟩
      · intro c hc
        rw [List.mem_singleton] at hc
        subst hc
        exact isDigit19_ne_dash h1
      · unfold digitVal at hif
        omega
  · have hif :
      (if (decide (c1 = '3') && (decide (c2 = '0') || decide (c2 = '1'))) = true then
        some (30 + digitVal c2)
      else if ((decide (c1 = '1') || decide (c1 = '2')) && isPyDigit c2) = true then
        some (10 * digitVal c1 + pyDigitVal c2)
      else if (decide (c1 = '0') && isDigit19 c2) = true then some (digitVal c2)
      else if (decide (c1 = ' ') && isDigit19 c2) = true then some (digitVal c2)
      else none) = some d := h
    split_ifs at hif with h1 h2 h3 h4
    · simp only [Bool.and_eq_true, Bool.or_eq_true, decide_eq_true_iff] at h1
      simp only [Option.some.injEq] at hif
      obtain ⟨rfl, hc2⟩ := h1
      refine ⟨?_, ?_⟩
      · intro c hc
        simp only [List.mem_cons, List.not_mem_nil, or_false] at hc
        rcases hc with rfl | rfl
        · decide
        · rcases hc2 with rfl | rfl <;> decide
      · rcases hc2 with rfl | rfl <;> unfold digitVal at hif <;> omega
    · simp only [Bool.and_eq_true, Bool.or_eq_true, decide_eq_true_iff] at h2
      simp only [Option.some.injEq] at hif
      obtain ⟨hc1, hc2⟩ := h2
      have hv := pyDigitVal_le_nine hc2
      refine ⟨?_, ?_⟩
      · intro c hc
        simp only [List.mem_cons, List.not_mem_nil, or_false] at hc
        rcases hc with rfl | rfl
        · rcases hc1 with rfl | rfl <;> decide
        · exact isPyDigit_ne_dash hc2
      · rcases hc1 with rfl | rfl <;> unfold digitVal at hif <;> omega
    · simp only [Bool.and_eq_true, decide_eq_true_iff] at h3
      simp only [Option.some.injEq] at hif
      obtain ⟨rfl, hc2⟩ := h3
      have h19 : 49 ≤ c2.toNat ∧ c2.toNat ≤ 57 := by
        simpa [isDigit19] using hc2
      refine ⟨?_, ?_⟩
      · intro c hc
        simp only [List.mem_cons, List.not_mem_nil, or_false] at hc
        rcases hc with rfl | rfl
        · decide
        · exact isDigit19_ne_dash hc2
      · unfold digitVal at hif
        omega
    · simp only [Bool.and_eq_true, decide_eq_true_iff] at h4
      simp only [Option.some.injEq] at hif
      obtain ⟨rfl, hc2⟩ := h4
      have h19 : 49 ≤ c2.toNat ∧ c2.toNat ≤ 57 := by
        simpa [isDigit19] using hc2
      refine ⟨?_, ?_⟩
      · intro c hc
        simp only [List.mem_cons, List.not_mem_nil, or_false] at hc
        rcases hc with rfl | rfl
        · decide
        · exact isDigit19_ne_dash hc2
      · unfold digitVal at hif
        omega
  · exact absurd h (by simp [dayField])

lemma parseDateFields_eq_some {s : String} {y m d : Nat} :
    parseDateFields s = some (y, m, d) ↔ YmdRepr s y m d := by
  constructor
  · intro h
    unfold parseDateFields at h
    rcases hs : splitDash s.data with _ | ⟨ys, _ | ⟨ms, _ | ⟨ds, _ | ⟨e, es⟩⟩⟩⟩ <;>
      rw [hs] at h <;> try simp at h
    rcases hy : yearField ys with _ | y2 <;> rw [hy] at h <;> try simp at h
    rcases hm : monthField ms with _ | m2 <;> rw [hm] at h <;> try simp at h
    rcases hd : dayField ds with _ | d2 <;> rw [hd] at h <;> try simp at h
    obtain ⟨rfl, rfl, rfl⟩ := h
    refine ⟨ys, ms, ds, ?_, hy, hm, hd⟩
    have := joinDash_splitDash s.data
    rw [hs] at this
    simpa [joinDash] using this.symm
  · rintro ⟨ys, ms, ds, hdata, hy, hm, hd⟩
    have hysd : ∀ c ∈ ys, c ≠ '-' := yearField_no_dash hy
    have hmsd : ∀ c ∈ ms, c ≠ '-' := monthField_no_dash hm
    have hdsd : ∀ c ∈ ds, c ≠ '-' := (dayField_shape hd).1
    unfold parseDateFields
    rw [hdata, splitDash_append hysd, splitDash_append hmsd, splitDash_noDash hdsd]
    simp [hy, hm, hd]

/-- C3 counterexample: `strptime` also accepts single-digit month and day
fields, so `validate_date` accepts `2024-1-5`, a real calendar date that
is not written in strict `YYYY-MM-DD` form. -/
theorem validate_date_lenient_counterexample :
    validate_date "2024-1-5" = true ∧ strictYmd "2024-1-5" = false := by
  constructor <;> rfl

/-- C3 (amended): `validate_date(s)` succeeds iff `s` splits at dashes
into the three strptime fields — a four-digit year (Unicode decimal
digits allowed), a one- or two-digit ASCII month, and a day that is
`1`-`9`, `01`-`09`, `10`-`29` (second digit any Unicode decimal digit),
`30`, `31`, or a space followed by `1`-`9` — forming a real calendar
date: year at least 1, month 1..12, day within the month's length.
Impossible dates such as month 13 or day 32 are rejected and so is every
other shape, but beyond strict `YYYY-MM-DD` the validator also accepts
forms such as `2024-1-5` and `2024-01- 5`. -/
theorem validate_date_characterization (s : String) :
    validate_date s = true ↔
      ∃ y m d, YmdRepr s y m d ∧
        1 ≤ y ∧ 1 ≤ m ∧ m ≤ 12 ∧ 1 ≤ d ∧ d ≤ daysInMonth y m := by
  unfold validate_date
  rcases hp : parseDateFields s with _ | ⟨y, m, d⟩
  · simp only [Bool.false_eq_true, false_iff]
    rintro ⟨y, m, d, hrepr, -⟩
    have := parseDateFields_eq_some.mpr hrepr
    rw [hp] at this
    exact Option.noConfusion this
  · simp only [Bool.and_eq_true, decide_eq_true_iff]
    constructor
    · rintro ⟨h1, h2⟩
      have hrepr := parseDateFields_eq_some.mp hp
      obtain ⟨ys, ms, ds, -, -, hm, hd⟩ := hrepr
      have hmb := monthField_eq_some.mp hm
      exact ⟨y, m, d, parseDateFields_eq_some.mp hp, h1, hmb.2.2.1, hmb.2.2.2.1,
        (dayField_shape hd).2.1, h2⟩
    · rintro ⟨y2, m2, d2, hrepr, h1, -, -, -, h5⟩
      have := parseDateFields_eq_some.mpr hrepr
      rw [hp] at this
      obtain ⟨rfl, rfl, rfl⟩ : y = y2 ∧ m = m2 ∧ d = d2 := by
        injection this with h
        injection h with ha hb
        injection hb with hb hc
        exact ⟨ha, hb, hc⟩
      exact ⟨h1, h5⟩

/-! ## C2: create on valid input, then list -/

/-- C2 counterexample: the success response of create carries only the new
id (plus a fixed success message), not the full record — two valid creates
differing in their description produce identical responses, so the
response cannot contain the full record. -/
theorem create_response_lacks_record :
    (create_expense emptyStore "2024-01-05" "Food" 10 "lunch").1 =
        CreateResult.created 1 ∧
      (create_expense emptyStore "2024-01-05" "Food" 10 "dinner").1 =
        CreateResult.created 1 := by
  constructor <;> decide

/-- C2 (amended): for every valid input, create succeeds and returns the
store-assigned id (only the id plus a success message — the record itself
is not echoed back), and a subsequent list contains a record carrying
exactly the given date, category, amount and description under that id.
The id is the AUTO_INCREMENT counter value, hence previously unused:
every id already in the table sits below the counter, the invariant
`Store.WF` that `emptyStore_WF`, `create_preserves_WF` and
`delete_preserves_WF` show every reachable store satisfies. -/
theorem create_valid_then_list (s : Store) (date cat : String) (amt : ℚ)
    (descr : String) (hd : validate_date date = true)
    (ha : validate_amount amt = true) (hc : cat ∈ CATEGORIES) :
    ∃ dd, parseDate date = some dd ∧
      (create_expense s date cat amt descr).1 = CreateResult.created s.nextId ∧
      ((∀ r ∈ s.rows, r.id < s.nextId) → ∀ r ∈ s.rows, r.id ≠ s.nextId) ∧
      ∃ r ∈ get_expenses (create_expense s date cat amt descr).2,
        r.id = s.nextId ∧ r.date = dd ∧ r.category = cat ∧ r.amount = amt ∧
          r.description = descr := by
  obtain ⟨y, m, d, hp, -, -⟩ := validate_date_fields hd
  have hpd : parseDate date = some ⟨y, m, d⟩ := parseDate_of_fields hp
  have hhd : ¬ validate_date date = false := by simp [hd]
  have hha : ¬ validate_amount amt = false := by simp [ha]
  have hhc : ¬ cat ∉ CATEGORIES := not_not_intro hc
  have hcreate : create_expense s date cat amt descr =
      (CreateResult.created s.nextId,
        { rows := s.rows ++
            [{ id := s.nextId, date := ⟨y, m, d⟩, category := cat,
               amount := amt, description := descr }],
          nextId := s.nextId + 1 }) := by
    unfold create_expense
    rw [if_neg hhd, if_neg hha, if_neg hhc, hpd]
    rfl
  refine ⟨⟨y, m, d⟩, hpd, (by rw [hcreate]), ?_, ?_⟩
  · intro hlt r hr
    exact Nat.ne_of_lt (hlt r hr)
  · refine ⟨{ id := s.nextId, date := ⟨y, m, d⟩, category := cat,
              amount := amt, description := descr }, ?_, rfl, rfl, rfl, rfl, rfl⟩
    rw [hcreate]
    unfold get_expenses
    rw [mem_sortByDateDesc]
    simp

/-- C2 witness: a concrete valid create on the empty store. -/
theorem create_valid_then_list_witness :
    ∃ dd, parseDate "2024-01-05" = some dd ∧
      (create_expense emptyStore "2024-01-05" "Food" 10 "lunch").1 =
        CreateResult.created emptyStore.nextId ∧
      ((∀ r ∈ emptyStore.rows, r.id < emptyStore.nextId) →
        ∀ r ∈ emptyStore.rows, r.id ≠ emptyStore.nextId) ∧
      ∃ r ∈ get_expenses (create_expense emptyStore "2024-01-05" "Food" 10 "lunch").2,
        r.id = emptyStore.nextId ∧ r.date = dd ∧ r.category = "Food" ∧
          r.amount = 10 ∧ r.description = "lunch" :=
  create_valid_then_list emptyStore "2024-01-05" "Food" 10 "lunch"
    (by decide) (by decide) (by decide)

/-- A fresh table satisfies the AUTO_INCREMENT invariant. -/
lemma emptyStore_WF : Store.WF emptyStore :=
  ⟨by simp [emptyStore], by simp [emptyStore]⟩

/-- Create keeps the AUTO_INCREMENT invariant: the inserted row takes the
counter value and the counter moves past it. -/
lemma create_preserves_WF (s : Store) (date cat : String) (amt : ℚ)
    (descr : String) (h : Store.WF s) :
    Store.WF (create_expense s date cat amt descr).2 := by
  unfold create_expense
  split_ifs with h1 h2 h3 <;> try exact h
  show Store.WF
    { rows := s.rows ++
        [{ id := s.nextId, date := (parseDate date).getD ⟨1, 1, 1⟩,
           category := cat, amount := amt, description := descr }],
      nextId := s.nextId + 1 }
  constructor
  · intro r hr
    simp only [List.mem_append, List.mem_singleton] at hr
    rcases hr with hr | rfl
    · exact Nat.lt_trans (h.1 r hr) (Nat.lt_succ_self _)
    · exact Nat.lt_succ_self _
  · rw [List.pairwise_append]
    refine ⟨h.2, List.pairwise_singleton _ _, ?_⟩
    intro a ha b hb
    simp only [List.mem_singleton] at hb
    subst hb
    exact Nat.ne_of_lt (h.1 a ha)

/-- Delete keeps the AUTO_INCREMENT invariant (the counter is not
reset). -/
lemma delete_preserves_WF (s : Store) (i : Nat) (h : Store.WF s) :
    Store.WF (delete_expense s i).2 := by
  unfold delete_expense
  split_ifs with h1 <;> try exact h
  show Store.WF
    { rows := s.rows.filter (fun r => decide (r.id ≠ i)), nextId := s.nextId }
  constructor
  · intro r hr
    exact h.1 r (List.mem_of_mem_filter hr)
  · exact h.2.sublist (List.filter_sublist _)

/-! ## C5: insights on a non-empty ledger -/

lemma pickFold_spec (l : List ExpenseRecord) :
    ∀ (cs : List String) (b : String × Nat), b.2 = catCount l b.1 →
      (cs.foldl (pickStep l) b).2 = catCount l (cs.foldl (pickStep l) b).1 ∧
      ((cs.foldl (pickStep l) b).1 = b.1 ∨ (cs.foldl (pickStep l) b).1 ∈ cs) ∧
      b.2 ≤ (cs.foldl (pickStep l) b).2 ∧
      ∀ c ∈ cs, catCount l c ≤ (cs.foldl (pickStep l) b).2 := by
  intro cs
  induction cs with
  | nil =>
    intro b hb
    exact ⟨hb, Or.inl rfl, le_refl _, by simp⟩
  | cons x cs ih =>
    intro b hb
    simp only [List.foldl_cons]
    by_cases hx : b.2 < catCount l x
    · have hstep : pickStep l b x = (x, catCount l x) := by
        unfold pickStep
        rw [if_pos hx]
      rw [hstep]
      obtain ⟨h1, h2, h3, h4⟩ := ih (x, catCount l x) rfl
      refine ⟨h1, ?_, ?_, ?_⟩
      · rcases h2 with h2 | h2
        · exact Or.inr (by rw [h2]; exact List.mem_cons_self x cs)
        · exact Or.inr (List.mem_cons_of_mem x h2)
      · exact le_trans (le_of_lt hx) h3
      · intro c hcmem
        rcases List.mem_cons.mp hcmem with rfl | hcmem
        · exact h3
        · exact h4 c hcmem
    · have hstep : pickStep l b x = b := by
        unfold pickStep
        rw [if_neg hx]
      rw [hstep]
      obtain ⟨h1, h2, h3, h4⟩ := ih b hb
      refine ⟨h1, ?_, h3, ?_⟩
      · rcases h2 with h2 | h2
        · exact Or.inl h2
        · exact Or.inr (List.mem_cons_of_mem x h2)
      · intro c hcmem
        rcases List.mem_cons.mp hcmem with rfl | hcmem
        · exact le_trans (not_lt.mp hx) h3
        · exact h4 c hcmem

lemma mem_categoriesOf {l : List ExpenseRecord} {c : String} :
    c ∈ categoriesOf l ↔ ∃ r ∈ l, r.category = c := by
  simp [categoriesOf, List.mem_dedup, List.mem_map]

lemma catCount_eq_zero_of_not_mem {l : List ExpenseRecord} {c : String}
    (h : c ∉ categoriesOf l) : catCount l c = 0 := by
  unfold catCount
  rw [List.length_eq_zero, List.filter_eq_nil_iff]
  intro r hr
  simp only [decide_eq_true_iff]
  intro heq
  exact h (mem_categoriesOf.mpr ⟨r, hr, heq⟩)

lemma pickMostCommon_spec (l : List ExpenseRecord) (hl : l ≠ []) :
    ∃ c k, pickMostCommon l = some (c, k) ∧ k = catCount l c ∧
      (∃ r ∈ l, r.category = c) ∧ ∀ c2 : String, catCount l c2 ≤ k := by
  rcases hcat : categoriesOf l with _ | ⟨c0, cs⟩
  · exfalso
    have hmap : l.map (fun r => r.category) = [] :=
      (List.dedup_eq_nil _).mp hcat
    exact hl (List.map_eq_nil_iff.mp hmap)
  · obtain ⟨h1, h2, h3, h4⟩ := pickFold_spec l cs (c0, catCount l c0) rfl
    refine ⟨(cs.foldl (pickStep l) (c0, catCount l c0)).1,
      (cs.foldl (pickStep l) (c0, catCount l c0)).2, ?_, h1, ?_, ?_⟩
    · unfold pickMostCommon
      rw [hcat]
    · have hmem : (cs.foldl (pickStep l) (c0, catCount l c0)).1 ∈ categoriesOf l := by
        rw [hcat]
        rcases h2 with h2 | h2
        · rw [h2]
          exact List.mem_cons_self _ _
        · exact List.mem_cons_of_mem _ h2
      exact mem_categoriesOf.mp hmem
    · intro c2
      by_cases hc2 : c2 ∈ categoriesOf l
      · rw [hcat] at hc2
        rcases List.mem_cons.mp hc2 with rfl | hc2
        · exact h3
        · exact h4 c2 hc2
      · rw [catCount_eq_zero_of_not_mem hc2]
        exact Nat.zero_le _

lemma foldl_max_spec : ∀ (xs : List ℚ) (a : ℚ),
    (xs.foldl max a = a ∨ xs.foldl max a ∈ xs) ∧ a ≤ xs.foldl max a ∧
      ∀ x ∈ xs, x ≤ xs.foldl max a := by
  intro xs
  induction xs with
  | nil =>
    intro a
    exact ⟨Or.inl rfl, le_refl _, by simp⟩
  | cons x t ih =>
    intro a
    simp only [List.foldl_cons]
    obtain ⟨h1, h2, h3⟩ := ih (max a x)
    refine ⟨?_, le_trans (le_max_left a x) h2, ?_⟩
    · rcases h1 with h1 | h1
      · rcases max_choice a x with hm | hm
        · exact Or.inl (by rw [h1, hm])
        · exact Or.inr (by rw [h1, hm]; exact List.mem_cons_self x t)
      · exact Or.inr (List.mem_cons_of_mem _ h1)
    · intro y hy
      rcases List.mem_cons.mp hy with rfl | hy
      · exact le_trans (le_max_right a y) h2
      · exact h3 y hy

lemma maxQ_spec (xs : List ℚ) (h : xs ≠ []) :
    maxQ xs ∈ xs ∧ ∀ a ∈ xs, a ≤ maxQ xs := by
  cases xs with
  | nil => exact absurd rfl h
  | cons x t =>
    have hred : maxQ (x :: t) = t.foldl max x := rfl
    rw [hred]
    obtain ⟨h1, h2, h3⟩ := foldl_max_spec t x
    refine ⟨?_, ?_⟩
    · rcases h1 with h1 | h1
      · rw [h1]
        exact List.mem_cons_self _ _
      · exact List.mem_cons_of_mem _ h1
    · intro a ha
      rcases List.mem_cons.mp ha with rfl | ha
      · exact h2
      · exact h3 a ha

/-- C5: on a non-empty ledger, insights reports the arithmetic mean of all
amounts (their sum divided by the record count), the maximum amount, and a
category attaining the largest record count together with that count. -/
theorem get_insights_nonempty (s : Store) (h : s.rows ≠ []) :
    (get_insights s).average_spending = amountsSum s.rows / (s.rows.length : ℚ) ∧
    ((get_insights s).highest_expense ∈ s.rows.map (fun r => r.amount) ∧
      ∀ a ∈ s.rows.map (fun r => r.amount), a ≤ (get_insights s).highest_expense) ∧
    ∃ c, (get_insights s).most_common_category = some c ∧
      (∃ r ∈ s.rows, r.category = c) ∧
      (get_insights s).category_count = catCount s.rows c ∧
      ∀ c2 : String, catCount s.rows c2 ≤ catCount s.rows c := by
  have hlen : ¬ s.rows.length = 0 := by simpa using h
  obtain ⟨c, k, hpick, hk, hcr, hmax⟩ := pickMostCommon_spec s.rows h
  have hins : get_insights s =
      { average_spending := amountsSum s.rows / (s.rows.length : ℚ),
        highest_expense := maxQ (s.rows.map (fun r => r.amount)),
        most_common_category := some c, category_count := k } := by
    unfold get_insights
    rw [if_neg hlen, hpick]
  rw [hins]
  have hmapne : s.rows.map (fun r => r.amount) ≠ [] := by
    simpa using h
  obtain ⟨hm1, hm2⟩ := maxQ_spec _ hmapne
  refine ⟨rfl, ⟨hm1, hm2⟩, c, rfl, hcr, hk, ?_⟩
  intro c2
  rw [← hk]
  exact hmax c2

/-- C5 witness: the spec's example ledger `[Food:10, Food:20, Transport:5]`
(whose insights evaluate to average `35/3` = 11.666..., highest `20`, most
common category `Food` with count `2`). -/
theorem get_insights_nonempty_witness :
    (get_insights insightsExample).average_spending =
        amountsSum insightsExample.rows / (insightsExample.rows.length : ℚ) ∧
      ((get_insights insightsExample).highest_expense ∈
          insightsExample.rows.map (fun r => r.amount) ∧
        ∀ a ∈ insightsExample.rows.map (fun r => r.amount),
          a ≤ (get_insights insightsExample).highest_expense) ∧
      ∃ c, (get_insights insightsExample).most_common_category = some c ∧
        (∃ r ∈ insightsExample.rows, r.category = c) ∧
        (get_insights insightsExample).category_count =
          catCount insightsExample.rows c ∧
        ∀ c2 : String,
          catCount insightsExample.rows c2 ≤ catCount insightsExample.rows c :=
  get_insights_nonempty insightsExample (by decide)

/-! ## C6: daily summaries -/

/-- C6: summaries groups the rows by exact date value, sums the amounts
within each group, and returns the groups in strictly descending date
order; a date with no rows never appears, every row's date appears, and an
empty ledger yields the empty sequence. -/
theorem get_summaries_spec (s : Store) :
    (s.rows = [] → get_summaries s = []) ∧
    (∀ p ∈ get_summaries s,
      (∃ r ∈ s.rows, r.date = p.1) ∧ p.2 = amountsSum (rowsOnDate s.rows p.1)) ∧
    (∀ r ∈ s.rows, ∃ q ∈ get_summaries s, q.1 = r.date) ∧
    List.Pairwise (fun p q : Date × ℚ => dateLeB q.1 p.1 = true ∧ p.1 ≠ q.1)
      (get_summaries s) := by
  refine ⟨?_, ?_, ?_, ?_⟩
  · intro h
    simp [get_summaries, h, List.insertionSort]
  · intro p hp
    unfold get_summaries at hp
    rw [List.mem_map] at hp
    obtain ⟨d, hd, hfd⟩ := hp
    have hd2 : d ∈ (s.rows.map (fun r => r.date)).dedup :=
      (List.perm_insertionSort dateDescR _).mem_iff.mp hd
    rw [List.mem_dedup, List.mem_map] at hd2
    obtain ⟨r, hr, hrd⟩ := hd2
    constructor
    · exact ⟨r, hr, by rw [hrd, ← hfd]⟩
    · rw [← hfd]
  · intro r hr
    refine ⟨(r.date, amountsSum (rowsOnDate s.rows r.date)), ?_, rfl⟩
    unfold get_summaries
    rw [List.mem_map]
    refine ⟨r.date, ?_, rfl⟩
    rw [(List.perm_insertionSort dateDescR _).mem_iff, List.mem_dedup, List.mem_map]
    exact ⟨r, hr, rfl⟩
  · unfold get_summaries
    rw [List.pairwise_map]
    have hsorted : List.Pairwise dateDescR
        (List.insertionSort dateDescR ((s.rows.map (fun r => r.date)).dedup)) :=
      List.sorted_insertionSort dateDescR _
    have hnodup : (List.insertionSort dateDescR
        ((s.rows.map (fun r => r.date)).dedup)).Nodup :=
      (List.perm_insertionSort dateDescR _).nodup_iff.mpr
        (List.nodup_dedup _)
    exact (hsorted.and hnodup).imp (fun hab => ⟨hab.1, hab.2⟩)

/-! ## C7: delete by id -/

lemma filter_id_partition (l : List ExpenseRecord) (i : Nat) :
    (l.filter (fun r => decide (r.id = i))).length +
      (l.filter (fun r => decide (r.id ≠ i))).length = l.length := by
  induction l with
  | nil => rfl
  | cons x t ih =>
    rw [List.filter_cons, List.filter_cons]
    by_cases hx : x.id = i
    · rw [if_pos (by simp [hx]), if_neg (by simp [hx])]
      simp only [List.length_cons]
      omega
    · rw [if_neg (by simp [hx]), if_pos (by simp [hx])]
      simp only [List.length_cons]
      omega

lemma count_eq_one_of_mem :
    ∀ (l : List ExpenseRecord), l.Pairwise (fun a b => a.id ≠ b.id) →
      ∀ i : Nat, (∃ r ∈ l, r.id = i) →
        (l.filter (fun r => decide (r.id = i))).length = 1 := by
  intro l
  induction l with
  | nil =>
    rintro - i ⟨r, hr, -⟩
    exact absurd hr (List.not_mem_nil r)
  | cons x t ih =>
    intro hnd i hex
    rw [List.pairwise_cons] at hnd
    obtain ⟨hx, hnd2⟩ := hnd
    by_cases hxi : x.id = i
    · have htail : t.filter (fun r => decide (r.id = i)) = [] := by
        rw [List.filter_eq_nil_iff]
        intro r hr
        simp only [decide_eq_true_iff]
        intro heq
        exact (hx r hr) (by rw [hxi, heq])
      rw [List.filter_cons, if_pos (by simp [hxi]), htail]
      rfl
    · obtain ⟨r, hr, hri⟩ := hex
      rcases List.mem_cons.mp hr with rfl | hr2
      · exact absurd hri hxi
      · rw [List.filter_cons, if_neg (by simp [hxi])]
        exact ih hnd2 i ⟨r, hr2, hri⟩

/-- C7: deleting the id of an existing record succeeds and removes exactly
one record (ids are unique); deleting the same id again — and more
generally any id matching zero records — yields the not-found outcome with
the store unchanged, and not-found is a result variant distinct from a
storage failure. -/
theorem delete_expense_spec (s : Store) (i : Nat) (hwf : Store.WF s) :
    ((∃ r ∈ s.rows, r.id = i) →
      (delete_expense s i).1 = DeleteResult.deleted ∧
      (delete_expense s i).2.rows.length + 1 = s.rows.length ∧
      delete_expense (delete_expense s i).2 i =
        (DeleteResult.notFound, (delete_expense s i).2)) ∧
    ((∀ r ∈ s.rows, r.id ≠ i) → delete_expense s i = (DeleteResult.notFound, s)) ∧
    DeleteResult.notFound ≠ DeleteResult.storageError := by
  refine ⟨?_, ?_, by decide⟩
  · intro hex
    have hcount := count_eq_one_of_mem s.rows hwf.2 i hex
    have hne : ¬ ((s.rows.filter (fun r => decide (r.id = i))).length = 0) := by
      omega
    have hdel : delete_expense s i =
        (DeleteResult.deleted,
          { rows := s.rows.filter (fun r => decide (r.id ≠ i)),
            nextId := s.nextId }) := by
      unfold delete_expense
      rw [if_neg hne]
    refine ⟨by rw [hdel], ?_, ?_⟩
    · rw [hdel]
      have hpart := filter_id_partition s.rows i
      show (s.rows.filter (fun r => decide (r.id ≠ i))).length + 1 = s.rows.length
      omega
    · rw [hdel]
      have hnil : ((s.rows.filter (fun r => decide (r.id ≠ i))).filter
          (fun r => decide (r.id = i))) = [] := by
        rw [List.filter_eq_nil_iff]
        intro r hr
        have hmem := (List.mem_filter.mp hr).2
        simp only [decide_eq_true_iff] at hmem ⊢
        exact hmem
      unfold delete_expense
      simp [hnil]
  · intro hall
    have hnil : s.rows.filter (fun r => decide (r.id = i)) = [] := by
      rw [List.filter_eq_nil_iff]
      intro r hr
      simp only [decide_eq_true_iff]
      exact hall r hr
    unfold delete_expense
    simp [hnil]

/-- C7 witness: a store holding one record with id 1. -/
theorem delete_expense_spec_witness :
    ((∃ r ∈ oneRowStore.rows, r.id = 1) →
      (delete_expense oneRowStore 1).1 = DeleteResult.deleted ∧
      (delete_expense oneRowStore 1).2.rows.length + 1 = oneRowStore.rows.length ∧
      delete_expense (delete_expense oneRowStore 1).2 1 =
        (DeleteResult.notFound, (delete_expense oneRowStore 1).2)) ∧
    ((∀ r ∈ oneRowStore.rows, r.id ≠ 1) →
      delete_expense oneRowStore 1 = (DeleteResult.notFound, oneRowStore)) ∧
    DeleteResult.notFound ≠ DeleteResult.storageError :=
  delete_expense_spec oneRowStore 1 ⟨by simp [oneRowStore], by simp [oneRowStore]⟩

/-! ## C8: filtering by a date range -/

/-- C8: with two validated dates the range filter always yields a result
(never an error): the returned total is the sum of the returned records'
amounts, the returned records are exactly the rows inside the inclusive
range, and when start > end the result is the empty sequence with total
0. -/
theorem filter_by_date_range_spec (s : Store) (a b : String)
    (ha : validate_date a = true) (hb : validate_date b = true) :
    ∃ da db l t, parseDate a = some da ∧ parseDate b = some db ∧
      filter_by_date_range s a b = some (l, t) ∧ t = amountsSum l ∧
      (∀ r ∈ l, dateLeB da r.date = true ∧ dateLeB r.date db = true) ∧
      (∀ r ∈ s.rows, dateLeB da r.date = true → dateLeB r.date db = true → r ∈ l) ∧
      (dateLeB da db = false → l = [] ∧ t = 0) := by
  obtain ⟨y1, m1, d1, hp1, -, -⟩ := validate_date_fields ha
  obtain ⟨y2, m2, d2, hp2, -, -⟩ := validate_date_fields hb
  have hpa : parseDate a = some ⟨y1, m1, d1⟩ := parseDate_of_fields hp1
  have hpb : parseDate b = some ⟨y2, m2, d2⟩ := parseDate_of_fields hp2
  have hha : ¬ validate_date a = false := by simp [ha]
  have hhb : ¬ validate_date b = false := by simp [hb]
  have hrun : filter_by_date_range s a b =
      some (sortByDateDesc (s.rows.filter
          (fun r => dateLeB ⟨y1, m1, d1⟩ r.date && dateLeB r.date ⟨y2, m2, d2⟩)),
        (sortByDateDesc (s.rows.filter
          (fun r => dateLeB ⟨y1, m1, d1⟩ r.date && dateLeB r.date ⟨y2, m2, d2⟩))).foldl
            (fun t r => t + r.amount) 0) := by
    unfold filter_by_date_range
    rw [if_neg hha, if_neg hhb, hpa, hpb]
    rfl
  refine ⟨⟨y1, m1, d1⟩, ⟨y2, m2, d2⟩, _, _, hpa, hpb, hrun, ?_, ?_, ?_, ?_⟩
  · rw [foldl_add_amount, zero_add]
  · intro r hr
    have hmem := (List.mem_filter.mp (mem_sortByDateDesc.mp hr)).2
    simpa [Bool.and_eq_true] using hmem
  · intro r hr h1 h2
    rw [mem_sortByDateDesc]
    exact List.mem_filter.mpr ⟨hr, by simp [h1, h2]⟩
  · intro hlt
    have hnil : s.rows.filter
        (fun r => dateLeB ⟨y1, m1, d1⟩ r.date && dateLeB r.date ⟨y2, m2, d2⟩) = [] := by
      rw [List.filter_eq_nil_iff]
      intro r hr
      simp only [Bool.and_eq_true, not_and]
      intro hx hy
      rw [dateLeB_trans hx hy] at hlt
      exact Bool.noConfusion hlt
    rw [hnil]
    exact ⟨rfl, rfl⟩

/-- C8 witness: a one-row store queried with start `2024-02-01` after end
`2024-01-01` — both valid dates — yields the empty sequence and total 0. -/
theorem filter_by_date_range_spec_witness :
    ∃ da db l t, parseDate "2024-02-01" = some da ∧ parseDate "2024-01-01" = some db ∧
      filter_by_date_range oneRowStore "2024-02-01" "2024-01-01" = some (l, t) ∧
      t = amountsSum l ∧
      (∀ r ∈ l, dateLeB da r.date = true ∧ dateLeB r.date db = true) ∧
      (∀ r ∈ oneRowStore.rows,
        dateLeB da r.date = true → dateLeB r.date db = true → r ∈ l) ∧
      (dateLeB da db = false → l = [] ∧ t = 0) :=
  filter_by_date_range_spec oneRowStore "2024-02-01" "2024-01-01"
    (by decide) (by decide)

end ExpenseTracker
